import Mathlib

/-!
A shallow embedding of the chess program in `chess1.cpp` and proofs of the
specification's claims about it.

Modelling conventions:
* `int` coordinates become `Int`; `Position` mirrors the C++ struct.
* The 8×8 grid of `shared_ptr<Piece>` cells becomes a total function
  `Fin 8 → Fin 8 → Piece`; the "no piece" state is the `Empty` sentinel
  piece `⟨White, None⟩`, exactly as in the source (`class Empty`).
* The C++ code indexes `vector::operator[]` with *unchecked* `int`
  coordinates; an out-of-range index is undefined behaviour.  Every raw
  board access is therefore embedded as an `Option`-valued read/write:
  `none` means the access was out of range, i.e. the C++ execution has no
  defined result at that point.  In-range accesses are `some`.
* Mutation is embedded by explicit state passing: `Board::move` returns the
  `bool` result of the C++ function together with the board after the call.
-/

inductive PieceColor
  | White
  | Black
deriving DecidableEq

inductive PieceType
  | King
  | Queen
  | Rook
  | Bishop
  | Knight
  | Pawn
  | None
deriving DecidableEq

/-- `struct Position { int row; int col; }` from the source. -/
structure Position where
  row : Int
  col : Int
deriving DecidableEq

/-- `Position::isValid` from the source:
`row >= 0 && row < 8 && col >= 0 && col < 8`. -/
def Position.isValid (p : Position) : Bool :=
  decide (0 ≤ p.row ∧ p.row < 8 ∧ 0 ≤ p.col ∧ p.col < 8)

/-- A piece value: the `color` and `type` fields of the C++ `Piece` base
class.  The per-kind behaviour (`isMoveValid`) is dispatched on `type`,
mirroring the virtual dispatch of the source over the concrete subclasses. -/
structure Piece where
  color : PieceColor
  type : PieceType
deriving DecidableEq

/-- `class Empty : Piece` — constructed with `PieceColor::White` and
`PieceType::None` in the source. -/
def emptyPiece : Piece := ⟨PieceColor.White, PieceType.None⟩

/-- The board storage: the 8×8 grid of piece cells
(`vector<vector<shared_ptr<Piece>>>` in the source; each cell always
holds exactly one piece value). -/
def Board : Type := Fin 8 → Fin 8 → Piece

/-- `Board::getPiece(pos)` — the source performs the unchecked index
`board[pos.row][pos.col]`.  `none` models an out-of-range access, which in
the C++ is undefined behaviour (there is no range check in the source). -/
def Board.getPiece (b : Board) (p : Position) : Option Piece :=
  if h : 0 ≤ p.row ∧ p.row < 8 ∧ 0 ≤ p.col ∧ p.col < 8 then
    some (b ⟨p.row.toNat, by omega⟩ ⟨p.col.toNat, by omega⟩)
  else none

/-- Overwrite one cell of the grid (a `board[i][j] = …` assignment with
already-in-range indices). -/
def Board.setCell (b : Board) (i j : Fin 8) (pc : Piece) : Board :=
  fun i' j' => if i' = i ∧ j' = j then pc else b i' j'

/-- A `board[p.row][p.col] = pc` assignment with raw `int` coordinates:
`none` models an out-of-range store (undefined behaviour in the C++). -/
def Board.store (b : Board) (p : Position) (pc : Piece) : Option Board :=
  if h : 0 ≤ p.row ∧ p.row < 8 ∧ 0 ≤ p.col ∧ p.col < 8 then
    some (b.setCell ⟨p.row.toNat, by omega⟩ ⟨p.col.toNat, by omega⟩ pc)
  else none

/-- The local `dir` computed at the top of `Pawn::isMoveValid`:
`(color == White) ? -1 : 1` — White moves toward decreasing row. -/
def pawnDir (c : PieceColor) : Int :=
  if c = PieceColor.White then -1 else 1

/-- The local `startRow` computed at the top of `Pawn::isMoveValid`:
`(color == White) ? 6 : 1`. -/
def pawnStartRow (c : PieceColor) : Int :=
  if c = PieceColor.White then 6 else 1

/-- The virtual `Piece::isMoveValid(from, to, board)` dispatched over the
concrete piece classes of the source.  Each branch transcribes one
subclass's override, including its exact order of board reads (every
subclass except `Empty` and the early-return branch of `Rook` reads
`board[to.row][to.col]` before anything else; `Pawn` additionally reads the
intermediate square only inside the short-circuited double-step test). -/
def isMoveValid (pc : Piece) (f t : Position) (b : Board) : Option Bool :=
  match pc.type with
  | PieceType.None => some false
  | PieceType.King =>
      (b.getPiece t).map fun dest =>
        if dest.type ≠ PieceType.None ∧ dest.color = pc.color then false
        else decide ((f.row - t.row).natAbs ≤ 1 ∧ (f.col - t.col).natAbs ≤ 1)
  | PieceType.Queen =>
      (b.getPiece t).map fun dest =>
        if dest.type ≠ PieceType.None ∧ dest.color = pc.color then false
        else decide ((f.row - t.row).natAbs = (f.col - t.col).natAbs ∨
                     f.row = t.row ∨ f.col = t.col)
  | PieceType.Rook =>
      if f.row ≠ t.row ∧ f.col ≠ t.col then some false
      else
        (b.getPiece t).map fun dest =>
          if dest.type ≠ PieceType.None ∧ dest.color = pc.color then false
          else true
  | PieceType.Bishop =>
      (b.getPiece t).map fun dest =>
        if dest.type ≠ PieceType.None ∧ dest.color = pc.color then false
        else decide ((f.row - t.row).natAbs = (f.col - t.col).natAbs)
  | PieceType.Knight =>
      (b.getPiece t).map fun dest =>
        if dest.type ≠ PieceType.None ∧ dest.color = pc.color then false
        else decide (((f.row - t.row).natAbs = 2 ∧ (f.col - t.col).natAbs = 1) ∨
                     ((f.row - t.row).natAbs = 1 ∧ (f.col - t.col).natAbs = 2))
  | PieceType.Pawn =>
      (b.getPiece t).bind fun dest =>
        if f.col = t.col ∧ dest.type = PieceType.None then
          if t.row = f.row + pawnDir pc.color then some true
          else if f.row = pawnStartRow pc.color ∧
                  t.row = f.row + 2 * pawnDir pc.color then
            (b.getPiece ⟨f.row + pawnDir pc.color, f.col⟩).map fun mid =>
              decide (mid.type = PieceType.None)
          else some false
        else if (t.col - f.col).natAbs = 1 ∧ t.row = f.row + pawnDir pc.color ∧
                dest.type ≠ PieceType.None ∧ dest.color ≠ pc.color then
          some true
        else some false

/-- `Board::move(from, to)`: fetch the source piece, re-check legality, on
success overwrite the destination (with a fresh Queen when a Pawn reaches
row 0 or 7 — automatic promotion), then overwrite the source with `Empty`;
returns the C++ `bool` result paired with the board after the call. -/
def Board.move (b : Board) (f t : Position) : Option (Bool × Board) :=
  (b.getPiece f).bind fun piece =>
    (isMoveValid piece f t b).bind fun valid =>
      if valid then
        (b.store t
            (if piece.type = PieceType.Pawn ∧ (t.row = 0 ∨ t.row = 7) then
              ⟨piece.color, PieceType.Queen⟩
            else piece)).bind fun b1 =>
          (b1.store f emptyPiece).map fun b2 => (true, b2)
      else some (false, b)

/-- Row-major enumeration of all 64 cells, as in the source's
`for (i = 0..7) for (j = 0..7)` scans. -/
def allCells : List (Fin 8 × Fin 8) :=
  (List.finRange 8).flatMap fun i => (List.finRange 8).map fun j => (i, j)

/-- `Board::findKing(color)`: row-major scan for a King of the given color;
returns the sentinel `{-1, -1}` if none is found. -/
def Board.findKing (b : Board) (c : PieceColor) : Position :=
  match allCells.find? (fun ij =>
      decide ((b ij.1 ij.2).type = PieceType.King ∧ (b ij.1 ij.2).color = c)) with
  | some ij => ⟨(ij.1 : Nat), (ij.2 : Nat)⟩
  | none => ⟨-1, -1⟩

/-- `Board::setup()`: all cells `Empty`, then the standard starting
placement — black back rank on row 0, black pawns on row 1, white pawns on
row 6, white back rank on row 7. -/
def backRank (c : PieceColor) (j : Fin 8) : Piece :=
  ⟨c, match (j : Nat) with
      | 0 => PieceType.Rook
      | 1 => PieceType.Knight
      | 2 => PieceType.Bishop
      | 3 => PieceType.Queen
      | 4 => PieceType.King
      | 5 => PieceType.Bishop
      | 6 => PieceType.Knight
      | _ => PieceType.Rook⟩

/-- The board produced by the constructor `Board::Board()` (which calls
`setup()`). -/
def Board.setup : Board := fun i j =>
  match (i : Nat) with
  | 0 => backRank PieceColor.Black j
  | 1 => ⟨PieceColor.Black, PieceType.Pawn⟩
  | 6 => ⟨PieceColor.White, PieceType.Pawn⟩
  | 7 => backRank PieceColor.White j
  | _ => emptyPiece

/-- The other color — the ternary in `ChessGame::nextTurn`. -/
def PieceColor.opposite : PieceColor → PieceColor
  | PieceColor.White => PieceColor.Black
  | PieceColor.Black => PieceColor.White

/-- The `ChessGame` state: its `Board`, `currentTurn` and `moveHistory`
members. -/
structure ChessGame where
  board : Board
  currentTurn : PieceColor
  moveHistory : List String

/-- `ChessGame::nextTurn()`. -/
def ChessGame.nextTurn (g : ChessGame) : ChessGame :=
  { g with currentTurn := g.currentTurn.opposite }

/-- `ChessGame::handleMove(from, to, fromStr, toStr)`: reject when the
source cell holds `Empty` or a piece of the wrong color; otherwise delegate
to `Board::move`, appending to the history (when both strings are
non-empty) on success.  The returned pair is the C++ `bool` result and the
game state after the call. -/
def handleMove (g : ChessGame) (f t : Position) (fromStr toStr : String) :
    Option (Bool × ChessGame) :=
  (g.board.getPiece f).bind fun piece =>
    if piece.type = PieceType.None ∨ piece.color ≠ g.currentTurn then
      some (false, g)
    else
      (g.board.move f t).map fun r =>
        if r.1 then
          let hist :=
            if fromStr ≠ "" ∧ toStr ≠ "" then
              g.moveHistory ++ [fromStr ++ "-" ++ toStr]
            else g.moveHistory
          (true, { g with board := r.2, moveHistory := hist })
        else (false, { g with board := r.2 })

/-- One iteration of the human branch of `ChessGame::start()`:
`if (handleMove(from, to, fromStr, toStr)) nextTurn();`. -/
def ChessGame.processMove (g : ChessGame) (f t : Position)
    (fromStr toStr : String) : Option ChessGame :=
  (handleMove g f t fromStr toStr).map fun r =>
    if r.1 then r.2.nextTurn else r.2

/-- `ChessGame::isCheckmate(color)`: true iff `findKing` returned the
sentinel (its row is `-1`). -/
def isCheckmate (b : Board) (c : PieceColor) : Bool :=
  decide ((b.findKing c).row = -1)

/-- Result of the end-of-game test at the top of the `start()` loop. -/
inductive TurnOutcome
  | ended (winner : PieceColor)
  | continues
deriving DecidableEq

/-- The end-condition check at the top of each `start()` loop iteration:
if the color about to move is "checkmated" (its king is absent) the game
ends and the *other* color is reported as winner. -/
def checkEndOfGame (g : ChessGame) : TurnOutcome :=
  if isCheckmate g.board g.currentTurn then
    TurnOutcome.ended g.currentTurn.opposite
  else TurnOutcome.continues

/-- The game state at program start: fresh board, White to move, empty
history. -/
def initGame : ChessGame := ⟨Board.setup, PieceColor.White, []⟩

/-! ### Basic lemmas about board access -/

lemma Board.getPiece_none (b : Board) (p : Position) (h : p.isValid = false) :
    b.getPiece p = none := by
  unfold Position.isValid at h
  unfold Board.getPiece
  rw [dif_neg (of_decide_eq_false h)]

lemma Board.getPiece_coe (b : Board) (i j : Fin 8) :
    b.getPiece ⟨(i : Nat), (j : Nat)⟩ = some (b i j) := by
  have hi := i.isLt
  have hj := j.isLt
  have hfun : ∀ (x : Fin 8), x = i → ∀ (y : Fin 8), y = j → b x y = b i j := by
    intro x hx y hy; rw [hx, hy]
  unfold Board.getPiece
  split
  · exact congrArg some (hfun _ (Fin.ext (by simp)) _ (Fin.ext (by simp)))
  · next hc =>
    refine absurd ⟨Int.natCast_nonneg _, ?_, Int.natCast_nonneg _, ?_⟩ hc
    · show ((i : Nat) : Int) < 8; exact_mod_cast hi
    · show ((j : Nat) : Int) < 8; exact_mod_cast hj

lemma Board.getPiece_eq_some (b : Board) (p : Position) (pc : Piece)
    (h : b.getPiece p = some pc) :
    ∃ i j : Fin 8, ((i : Nat) : Int) = p.row ∧ ((j : Nat) : Int) = p.col ∧ b i j = pc := by
  unfold Board.getPiece at h
  split at h
  · next hv =>
    refine ⟨⟨p.row.toNat, by omega⟩, ⟨p.col.toNat, by omega⟩, by simp; omega, by simp; omega,
      by injection h⟩
  · exact absurd h (by simp)

/-! ### Rejected moves change nothing (C2 machinery) -/

lemma Board.move_false (b : Board) (f t : Position) (b2 : Board)
    (h : b.move f t = some (false, b2)) : b2 = b := by
  unfold Board.move at h
  cases hg : b.getPiece f with
  | none => rw [hg] at h; simp at h
  | some pc =>
    rw [hg, Option.some_bind] at h
    cases hv : isMoveValid pc f t b with
    | none => rw [hv] at h; simp at h
    | some v =>
      rw [hv, Option.some_bind] at h
      cases v with
      | true =>
        rw [if_pos rfl] at h
        cases hs : b.store t (if pc.type = PieceType.Pawn ∧ (t.row = 0 ∨ t.row = 7) then
            ⟨pc.color, PieceType.Queen⟩ else pc) with
        | none => rw [hs] at h; simp at h
        | some b1 =>
          rw [hs, Option.some_bind] at h
          cases hs2 : b1.store f emptyPiece with
          | none => rw [hs2] at h; simp at h
          | some bfin => rw [hs2] at h; simp at h
      | false =>
        rw [if_neg (by simp)] at h
        simp only [Option.some_inj, Prod.mk.injEq] at h
        exact h.2.symm

lemma handleMove_false (g : ChessGame) (f t : Position) (s1 s2 : String) (g2 : ChessGame)
    (h : handleMove g f t s1 s2 = some (false, g2)) : g2 = g := by
  unfold handleMove at h
  cases hg : g.board.getPiece f with
  | none => rw [hg] at h; simp at h
  | some pc =>
    rw [hg, Option.some_bind] at h
    split at h
    · simp only [Option.some_inj, Prod.mk.injEq] at h
      exact h.2.symm
    · cases hm : g.board.move f t with
      | none => rw [hm] at h; simp at h
      | some r =>
        rw [hm, Option.map_some'] at h
        cases hr : r.1 with
        | true => rw [hr] at h; simp at h
        | false =>
          rw [hr] at h
          simp only [if_neg Bool.false_ne_true, Option.some_inj, Prod.mk.injEq] at h
          have hb : r.2 = g.board := Board.move_false _ _ _ _ (by rw [hm, ← hr])
          rw [← h.2, hb]

lemma handleMove_turn (g : ChessGame) (f t : Position) (s1 s2 : String) (ok : Bool)
    (g1 : ChessGame) (h : handleMove g f t s1 s2 = some (ok, g1)) :
    g1.currentTurn = g.currentTurn := by
  unfold handleMove at h
  cases hg : g.board.getPiece f with
  | none => rw [hg] at h; simp at h
  | some pc =>
    rw [hg, Option.some_bind] at h
    split at h
    · simp only [Option.some_inj, Prod.mk.injEq] at h
      rw [← h.2]
    · cases hm : g.board.move f t with
      | none => rw [hm] at h; simp at h
      | some r =>
        rw [hm, Option.map_some'] at h
        cases hr : r.1 with
        | true =>
          rw [hr, if_pos rfl] at h
          simp only [Option.some_inj, Prod.mk.injEq] at h
          rw [← h.2]
        | false =>
          rw [hr, if_neg Bool.false_ne_true] at h
          simp only [Option.some_inj, Prod.mk.injEq] at h
          rw [← h.2]

/-! ### Claims C1–C3 -/

/-- C1: the spec claims every out-of-range `from`/`to` is rejected with an
out-of-range error before board storage is touched, and that `handleMove`
then returns `false`.  The source never performs this check (the
`Position::isValid` helper exists but is never called): `handleMove`
immediately evaluates `board[from.row][from.col]`, an unchecked
`vector::operator[]` access — undefined behaviour, modelled as `none`.  In
particular the call does *not* return `false`: its very first board access
is already out of range. -/
theorem C1_oob_handleMove_undefined (g : ChessGame) (f t : Position)
    (s1 s2 : String) (h : f.isValid = false) :
    handleMove g f t s1 s2 = none ∧
      ∀ g2 : ChessGame, handleMove g f t s1 s2 ≠ some (false, g2) := by
  have hn : handleMove g f t s1 s2 = none := by
    unfold handleMove
    rw [Board.getPiece_none _ _ h]
    rfl
  exact ⟨hn, fun g2 hc => by rw [hn] at hc; exact Option.noConfusion hc⟩

/-- Witness for C1 at the concrete request `from = (8,0)` (the row the
input parser produces for a rank digit `'0'`, e.g. the typed move
`"a0 a8"`). -/
theorem C1_oob_handleMove_undefined_witness :
    Position.isValid ⟨8, 0⟩ = false ∧
      handleMove initGame ⟨8, 0⟩ ⟨0, 0⟩ "a0" "a8" = none :=
  ⟨rfl, (C1_oob_handleMove_undefined initGame ⟨8, 0⟩ ⟨0, 0⟩ "a0" "a8" rfl).1⟩

/-- C2: a rejected move request has zero observable effect — the game state
returned by `handleMove` is the original one, `Board::move` returning
`false` leaves every cell unchanged, and processing the same illegal
request twice leaves the state exactly as processing it zero times. -/
theorem C2_rejected_move_transactional (g : ChessGame) (f t : Position)
    (s1 s2 : String) (g2 : ChessGame)
    (h : handleMove g f t s1 s2 = some (false, g2)) :
    g2 = g ∧
      (∀ b2 : Board, g.board.move f t = some (false, b2) → b2 = g.board) ∧
      g.processMove f t s1 s2 = some g ∧
      (g.processMove f t s1 s2).bind (fun g1 => g1.processMove f t s1 s2) = some g := by
  have hg2 : g2 = g := handleMove_false g f t s1 s2 g2 h
  have hp : g.processMove f t s1 s2 = some g := by
    unfold ChessGame.processMove
    rw [h, Option.map_some']
    rw [hg2]
    rfl
  refine ⟨hg2, fun b2 hb => Board.move_false _ _ _ _ hb, hp, ?_⟩
  rw [hp, Option.some_bind, hp]

/-- Witness for C2: from the initial position, the request `(4,4) → (3,4)`
names an empty source square, so it is rejected and both one and two
applications leave the initial game state intact. -/
theorem C2_rejected_move_transactional_witness :
    initGame.processMove ⟨4, 4⟩ ⟨3, 4⟩ "" "" = some initGame ∧
      (initGame.processMove ⟨4, 4⟩ ⟨3, 4⟩ "" "").bind
        (fun g1 => g1.processMove ⟨4, 4⟩ ⟨3, 4⟩ "" "") = some initGame := by
  have h := C2_rejected_move_transactional initGame ⟨4, 4⟩ ⟨3, 4⟩ "" "" initGame rfl
  exact ⟨h.2.2.1, h.2.2.2⟩

/-- C3: processing a move request flips the color to move exactly once when
the request is accepted (`opposite` never fixes a color), and leaves the
color to move untouched when the request is rejected. -/
theorem C3_turn_alternation (g : ChessGame) (f t : Position) (s1 s2 : String)
    (g2 : ChessGame) (h : g.processMove f t s1 s2 = some g2) :
    (∀ c : PieceColor, c.opposite ≠ c) ∧
      ((∃ g1, handleMove g f t s1 s2 = some (true, g1)) →
        g2.currentTurn = g.currentTurn.opposite) ∧
      ((∃ g1, handleMove g f t s1 s2 = some (false, g1)) →
        g2.currentTurn = g.currentTurn) := by
  refine ⟨fun c => by cases c <;> simp [PieceColor.opposite], ?_, ?_⟩
  · rintro ⟨g1, h1⟩
    unfold ChessGame.processMove at h
    rw [h1, Option.map_some'] at h
    simp only [if_pos rfl, Option.some_inj] at h
    rw [← h]
    show g1.currentTurn.opposite = g.currentTurn.opposite
    rw [handleMove_turn g f t s1 s2 true g1 h1]
  · rintro ⟨g1, h1⟩
    unfold ChessGame.processMove at h
    rw [h1, Option.map_some'] at h
    simp only [if_neg Bool.false_ne_true, Option.some_inj] at h
    rw [← h, handleMove_turn g f t s1 s2 false g1 h1]

/-- The game state after White's opening `e2 e4` (used as the C3 witness's
concrete accepted move). -/
def gameE2E4 : ChessGame :=
  (initGame.processMove ⟨6, 4⟩ ⟨4, 4⟩ "e2" "e4").getD initGame

/-- The `(bool, state)` pair `handleMove` yields for `e2 e4`. -/
def handleE2E4 : Bool × ChessGame :=
  (handleMove initGame ⟨6, 4⟩ ⟨4, 4⟩ "e2" "e4").getD (false, initGame)

/-- Witness for C3: White's accepted opening move `e2 e4` flips the color
to move from White to Black. -/
theorem C3_turn_alternation_witness :
    gameE2E4.currentTurn = initGame.currentTurn.opposite :=
  (C3_turn_alternation initGame ⟨6, 4⟩ ⟨4, 4⟩ "e2" "e4" gameE2E4 rfl).2.1
    ⟨handleE2E4.2, rfl⟩

/-! ### Piece-predicate characterizations (C4, C6, C7 machinery) -/

lemma isMoveValid_pawn (c : PieceColor) (f t : Position) (b : Board) :
    isMoveValid ⟨c, PieceType.Pawn⟩ f t b =
      (b.getPiece t).bind fun dest =>
        if f.col = t.col ∧ dest.type = PieceType.None then
          if t.row = f.row + pawnDir c then some true
          else if f.row = pawnStartRow c ∧ t.row = f.row + 2 * pawnDir c then
            (b.getPiece ⟨f.row + pawnDir c, f.col⟩).map fun mid =>
              decide (mid.type = PieceType.None)
          else some false
        else if (t.col - f.col).natAbs = 1 ∧ t.row = f.row + pawnDir c ∧
                dest.type ≠ PieceType.None ∧ dest.color ≠ c then
          some true
        else some false := rfl

lemma isMoveValid_king (c : PieceColor) (f t : Position) (b : Board) :
    isMoveValid ⟨c, PieceType.King⟩ f t b =
      (b.getPiece t).map fun dest =>
        if dest.type ≠ PieceType.None ∧ dest.color = c then false
        else decide ((f.row - t.row).natAbs ≤ 1 ∧ (f.col - t.col).natAbs ≤ 1) := rfl

/-- C4: the Pawn legality predicate accepts exactly single forward steps to
an empty square, double forward steps from the starting rank through an
empty intermediate square to an empty square, and one-step diagonal
captures of an opposing piece; White's direction is `-1` (decreasing row)
and its starting rank is row 6, Black's are `1` and row 1.  Consequently a
white pawn on row 6 may move to row 4 only when rows 5 and 4 of its column
are both empty. -/
theorem C4_pawn_legality (b : Board) (c : PieceColor) (f t : Position) (dest : Piece)
    (ht : b.getPiece t = some dest) :
    (pawnDir PieceColor.White = -1 ∧ pawnDir PieceColor.Black = 1 ∧
      pawnStartRow PieceColor.White = 6 ∧ pawnStartRow PieceColor.Black = 1) ∧
    (isMoveValid ⟨c, PieceType.Pawn⟩ f t b = some true ↔
      (f.col = t.col ∧ dest.type = PieceType.None ∧ t.row = f.row + pawnDir c) ∨
      (f.col = t.col ∧ dest.type = PieceType.None ∧ f.row = pawnStartRow c ∧
        t.row = f.row + 2 * pawnDir c ∧
        ∃ mid, b.getPiece ⟨f.row + pawnDir c, f.col⟩ = some mid ∧
          mid.type = PieceType.None) ∨
      ((t.col - f.col).natAbs = 1 ∧ t.row = f.row + pawnDir c ∧
        dest.type ≠ PieceType.None ∧ dest.color ≠ c)) := by
  refine ⟨⟨rfl, rfl, rfl, rfl⟩, ?_⟩
  rw [isMoveValid_pawn, ht, Option.some_bind]
  split_ifs with h1 h2 h3 h4
  · exact iff_of_true rfl (Or.inl ⟨h1.1, h1.2, h2⟩)
  · cases hm : b.getPiece ⟨f.row + pawnDir c, f.col⟩ with
    | none =>
      refine iff_of_false (by simp) ?_
      rintro (⟨_, _, hstep⟩ | ⟨_, _, _, _, mid, hmid, _⟩ | ⟨hdiag, _, _, _⟩)
      · exact h2 hstep
      · exact Option.noConfusion hmid
      · rw [h1.1] at hdiag; omega
    | some mid =>
      rw [Option.map_some']
      constructor
      · intro hx
        have hmidty : mid.type = PieceType.None :=
          of_decide_eq_true (Option.some_injective _ hx)
        exact Or.inr (Or.inl ⟨h1.1, h1.2, h3.1, h3.2, ⟨mid, rfl, hmidty⟩⟩)
      · intro hr
        have hmidty : mid.type = PieceType.None := by
          rcases hr with ⟨_, _, hstep⟩ | ⟨_, _, _, _, mid2, hmid2, hty⟩ | ⟨hdiag, _, _, _⟩
          · exact absurd hstep h2
          · injection hmid2 with e
            rw [e]
            exact hty
          · exfalso; rw [h1.1] at hdiag; omega
        rw [hmidty]
        rfl
  · refine iff_of_false (by simp) ?_
    rintro (⟨_, _, hstep⟩ | ⟨_, _, hsr, hdbl, _⟩ | ⟨hdiag, _, _, _⟩)
    · exact h2 hstep
    · exact h3 ⟨hsr, hdbl⟩
    · rw [h1.1] at hdiag; omega
  · exact iff_of_true rfl (Or.inr (Or.inr h4))
  · refine iff_of_false (by simp) ?_
    rintro (⟨hcol, hdt, _⟩ | ⟨hcol, hdt, _⟩ | hcap)
    · exact h1 ⟨hcol, hdt⟩
    · exact h1 ⟨hcol, hdt⟩
    · exact h4 hcap

/-- Witness for C4: from the starting position White's pawn double step
`(6,4) → (4,4)` is accepted (rows 5 and 4 of column 4 are both empty). -/
theorem C4_pawn_legality_witness :
    isMoveValid ⟨PieceColor.White, PieceType.Pawn⟩ ⟨6, 4⟩ ⟨4, 4⟩ Board.setup = some true :=
  (C4_pawn_legality Board.setup PieceColor.White ⟨6, 4⟩ ⟨4, 4⟩ emptyPiece rfl).2.mpr
    (Or.inr (Or.inl ⟨rfl, rfl, rfl, rfl, ⟨emptyPiece, rfl, rfl⟩⟩))

/-- C6: the King accepts exactly the moves of at most one step in each
direction that are not the null move and do not land on a same-color
occupant; the null move is excluded because its destination is the king's
own (same-color) square. -/
theorem C6_king_legality (b : Board) (c : PieceColor) (f t : Position) (dest : Piece)
    (hsrc : b.getPiece f = some ⟨c, PieceType.King⟩) (ht : b.getPiece t = some dest) :
    isMoveValid ⟨c, PieceType.King⟩ f t b = some true ↔
      ((f.row - t.row).natAbs ≤ 1 ∧ (f.col - t.col).natAbs ≤ 1 ∧ f ≠ t ∧
        ¬(dest.type ≠ PieceType.None ∧ dest.color = c)) := by
  by_cases hft : f = t
  · rw [← hft] at ht
    rw [hsrc] at ht
    injection ht with hdest
    rw [isMoveValid_king, ← hft, hsrc, Option.map_some']
    rw [if_pos (show (⟨c, PieceType.King⟩ : Piece).type ≠ PieceType.None ∧
      (⟨c, PieceType.King⟩ : Piece).color = c from ⟨fun hk => PieceType.noConfusion hk, rfl⟩)]
    refine iff_of_false (by simp) ?_
    rintro ⟨_, _, hne, _⟩
    exact hne rfl
  · rw [isMoveValid_king, ht, Option.map_some']
    split_ifs with hd
    · refine iff_of_false (by simp) ?_
      rintro ⟨_, _, _, hnd⟩
      exact hnd hd
    · simp only [Option.some_inj, decide_eq_true_eq]
      constructor
      · rintro ⟨hr1, hr2⟩
        exact ⟨hr1, hr2, hft, hd⟩
      · rintro ⟨hr1, hr2, _, _⟩
        exact ⟨hr1, hr2⟩

/-- A board holding only a white King at `(4,4)` (the C6 witness board). -/
def lonelyKingBoard : Board := fun i j =>
  if (i : Nat) = 4 ∧ (j : Nat) = 4 then ⟨PieceColor.White, PieceType.King⟩
  else emptyPiece

/-- Witness for C6 at the concrete one-step move `(4,4) → (3,4)` of a lone
white king. -/
theorem C6_king_legality_witness :
    isMoveValid ⟨PieceColor.White, PieceType.King⟩ ⟨4, 4⟩ ⟨3, 4⟩ lonelyKingBoard = some true ↔
      ((4 - 3 : Int).natAbs ≤ 1 ∧ (4 - 4 : Int).natAbs ≤ 1 ∧
        (⟨4, 4⟩ : Position) ≠ ⟨3, 4⟩ ∧
        ¬(emptyPiece.type ≠ PieceType.None ∧ emptyPiece.color = PieceColor.White)) :=
  C6_king_legality lonelyKingBoard PieceColor.White ⟨4, 4⟩ ⟨3, 4⟩ emptyPiece rfl rfl

lemma isMoveValid_queen (c : PieceColor) (f t : Position) (b : Board) :
    isMoveValid ⟨c, PieceType.Queen⟩ f t b =
      (b.getPiece t).map fun dest =>
        if dest.type ≠ PieceType.None ∧ dest.color = c then false
        else decide ((f.row - t.row).natAbs = (f.col - t.col).natAbs ∨
                     f.row = t.row ∨ f.col = t.col) := rfl

lemma isMoveValid_rook (c : PieceColor) (f t : Position) (b : Board) :
    isMoveValid ⟨c, PieceType.Rook⟩ f t b =
      if f.row ≠ t.row ∧ f.col ≠ t.col then some false
      else
        (b.getPiece t).map fun dest =>
          if dest.type ≠ PieceType.None ∧ dest.color = c then false
          else true := rfl

lemma isMoveValid_bishop (c : PieceColor) (f t : Position) (b : Board) :
    isMoveValid ⟨c, PieceType.Bishop⟩ f t b =
      (b.getPiece t).map fun dest =>
        if dest.type ≠ PieceType.None ∧ dest.color = c then false
        else decide ((f.row - t.row).natAbs = (f.col - t.col).natAbs) := rfl

/-- A position strictly between `f` and `t`: collinear with them, inside
their bounding box, and distinct from both endpoints. -/
def strictlyBetween (f t p : Position) : Prop :=
  (p.row - f.row) * (t.col - f.col) = (p.col - f.col) * (t.row - f.row) ∧
  min f.row t.row ≤ p.row ∧ p.row ≤ max f.row t.row ∧
  min f.col t.col ≤ p.col ∧ p.col ≤ max f.col t.col ∧
  p ≠ f ∧ p ≠ t

lemma Board.setCell_getPiece_ne (b : Board) (i j : Fin 8) (x : Piece) (t : Position)
    (hne : (⟨(i : Nat), (j : Nat)⟩ : Position) ≠ t) :
    (b.setCell i j x).getPiece t = b.getPiece t := by
  unfold Board.getPiece
  split
  · next hv =>
    obtain ⟨hv1, hv2, hv3, hv4⟩ := hv
    refine congrArg some ?_
    rw [Board.setCell, if_neg]
    rintro ⟨hi, hj⟩
    apply hne
    have hi2 : t.row.toNat = (i : Nat) := congrArg Fin.val hi
    have hj2 : t.col.toNat = (j : Nat) := congrArg Fin.val hj
    cases t with
    | mk r cc =>
      simp only [Position.mk.injEq]
      simp only at hi2 hj2 hv1 hv2 hv3 hv4
      omega
  · rfl

/-- C7: the Queen, Rook and Bishop legality predicates are pure functions
of the move geometry and the destination cell — Queen: same row, same
column, or equal absolute deltas; Rook: same row or same column; Bishop:
equal absolute deltas; each also rejects a same-color destination occupant
— and any board agreeing at the destination (in particular any board
obtained by rewriting a cell strictly between `f` and `t`) yields the same
three results. -/
theorem C7_slider_no_path_check (b : Board) (c : PieceColor) (f t : Position)
    (dest : Piece) (ht : b.getPiece t = some dest) :
    (isMoveValid ⟨c, PieceType.Queen⟩ f t b = some true ↔
      (((f.row - t.row).natAbs = (f.col - t.col).natAbs ∨ f.row = t.row ∨ f.col = t.col) ∧
        ¬(dest.type ≠ PieceType.None ∧ dest.color = c))) ∧
    (isMoveValid ⟨c, PieceType.Rook⟩ f t b = some true ↔
      ((f.row = t.row ∨ f.col = t.col) ∧
        ¬(dest.type ≠ PieceType.None ∧ dest.color = c))) ∧
    (isMoveValid ⟨c, PieceType.Bishop⟩ f t b = some true ↔
      ((f.row - t.row).natAbs = (f.col - t.col).natAbs ∧
        ¬(dest.type ≠ PieceType.None ∧ dest.color = c))) ∧
    (∀ b' : Board, b'.getPiece t = b.getPiece t →
      isMoveValid ⟨c, PieceType.Queen⟩ f t b' = isMoveValid ⟨c, PieceType.Queen⟩ f t b ∧
      isMoveValid ⟨c, PieceType.Rook⟩ f t b' = isMoveValid ⟨c, PieceType.Rook⟩ f t b ∧
      isMoveValid ⟨c, PieceType.Bishop⟩ f t b' = isMoveValid ⟨c, PieceType.Bishop⟩ f t b) ∧
    (∀ (i j : Fin 8) (x : Piece), strictlyBetween f t ⟨(i : Nat), (j : Nat)⟩ →
      (b.setCell i j x).getPiece t = b.getPiece t) := by
  refine ⟨?_, ?_, ?_, ?_, ?_⟩
  · rw [isMoveValid_queen, ht, Option.map_some']
    split_ifs with hd
    · refine iff_of_false (by simp) ?_
      rintro ⟨_, hnd⟩
      exact hnd hd
    · simp only [Option.some_inj, decide_eq_true_eq]
      exact ⟨fun hg => ⟨hg, hd⟩, fun hg => hg.1⟩
  · rw [isMoveValid_rook]
    split_ifs with hgeo
    · refine iff_of_false (by simp) ?_
      rintro ⟨hrc, _⟩
      rcases hrc with hr | hc
      · exact hgeo.1 hr
      · exact hgeo.2 hc
    · rw [ht, Option.map_some']
      split_ifs with hd
      · refine iff_of_false (by simp) ?_
        rintro ⟨_, hnd⟩
        exact hnd hd
      · refine iff_of_true rfl ⟨?_, hd⟩
        by_cases hr : f.row = t.row
        · exact Or.inl hr
        · exact Or.inr (by_contra fun hc => hgeo ⟨hr, hc⟩)
  · rw [isMoveValid_bishop, ht, Option.map_some']
    split_ifs with hd
    · refine iff_of_false (by simp) ?_
      rintro ⟨_, hnd⟩
      exact hnd hd
    · simp only [Option.some_inj, decide_eq_true_eq]
      exact ⟨fun hg => ⟨hg, hd⟩, fun hg => hg.1⟩
  · intro b' hb
    rw [isMoveValid_queen, isMoveValid_rook, isMoveValid_bishop,
      isMoveValid_queen, isMoveValid_rook, isMoveValid_bishop, hb]
    exact ⟨rfl, rfl, rfl⟩
  · intro i j x hbet
    exact Board.setCell_getPiece_ne b i j x t hbet.2.2.2.2.2.2

/-- Witness for C7 at the spec's end-to-end example move: the white bishop
`(7,5) → (4,2)` on the starting board, a diagonal accepted even though the
pawn on `(6,4)` blocks the path in real chess. -/
theorem C7_slider_no_path_check_witness :
    isMoveValid ⟨PieceColor.White, PieceType.Bishop⟩ ⟨7, 5⟩ ⟨4, 2⟩ Board.setup = some true ↔
      (((7 - 4 : Int).natAbs = (5 - 2 : Int).natAbs ∧
        ¬(emptyPiece.type ≠ PieceType.None ∧ emptyPiece.color = PieceColor.White))) :=
  (C7_slider_no_path_check Board.setup PieceColor.White ⟨7, 5⟩ ⟨4, 2⟩ emptyPiece rfl).2.2.1

/-! ### Successful moves (C5, C9, C10 machinery) -/

lemma Board.store_eq_some (b : Board) (p : Position) (pc : Piece) (b1 : Board)
    (h : b.store p pc = some b1) :
    ∃ i j : Fin 8, ((i : Nat) : Int) = p.row ∧ ((j : Nat) : Int) = p.col ∧
      b1 = b.setCell i j pc := by
  unfold Board.store at h
  split at h
  · next hv =>
    refine ⟨⟨p.row.toNat, by omega⟩, ⟨p.col.toNat, by omega⟩, by simp; omega, by simp; omega,
      (Option.some_injective _ h).symm⟩
  · exact absurd h (by simp)

lemma Board.store_coe (b : Board) (i j : Fin 8) (pc : Piece) :
    b.store ⟨(i : Nat), (j : Nat)⟩ pc = some (b.setCell i j pc) := by
  have hi := i.isLt
  have hj := j.isLt
  have hfun : ∀ (x : Fin 8), x = i → ∀ (y : Fin 8), y = j →
      b.setCell x y pc = b.setCell i j pc := by
    intro x hx y hy; rw [hx, hy]
  unfold Board.store
  split
  · exact congrArg some (hfun _ (Fin.ext (by simp)) _ (Fin.ext (by simp)))
  · next hc =>
    refine absurd ⟨Int.natCast_nonneg _, ?_, Int.natCast_nonneg _, ?_⟩ hc
    · show ((i : Nat) : Int) < 8; exact_mod_cast hi
    · show ((j : Nat) : Int) < 8; exact_mod_cast hj

lemma Board.setCell_self (b : Board) (i j : Fin 8) (x : Piece) :
    b.setCell i j x i j = x := by
  rw [Board.setCell, if_pos ⟨rfl, rfl⟩]

lemma Board.setCell_other (b : Board) (i j : Fin 8) (x : Piece) (i' j' : Fin 8)
    (h : ¬(i' = i ∧ j' = j)) : b.setCell i j x i' j' = b i' j' := by
  rw [Board.setCell, if_neg h]

/-- Anatomy of a successful `Board::move`: the fetched source piece, the
positive legality re-check, the in-range destination and source indices,
and the resulting grid (destination overwritten with the mover or its
promotion, source overwritten with `Empty`). -/
lemma Board.move_true_elim (b : Board) (f t : Position) (b2 : Board)
    (h : b.move f t = some (true, b2)) :
    ∃ pc, b.getPiece f = some pc ∧ isMoveValid pc f t b = some true ∧
      ∃ (fi fj ti tj : Fin 8),
        ((fi : Nat) : Int) = f.row ∧ ((fj : Nat) : Int) = f.col ∧
        ((ti : Nat) : Int) = t.row ∧ ((tj : Nat) : Int) = t.col ∧
        b2 = (b.setCell ti tj
          (if pc.type = PieceType.Pawn ∧ (t.row = 0 ∨ t.row = 7) then
            ⟨pc.color, PieceType.Queen⟩
          else pc)).setCell fi fj emptyPiece := by
  unfold Board.move at h
  cases hg : b.getPiece f with
  | none => rw [hg] at h; simp at h
  | some pc =>
    rw [hg, Option.some_bind] at h
    cases hv : isMoveValid pc f t b with
    | none => rw [hv] at h; simp at h
    | some v =>
      rw [hv, Option.some_bind] at h
      cases v with
      | false =>
        rw [if_neg Bool.false_ne_true] at h
        exact Bool.noConfusion (congrArg Prod.fst (Option.some_injective _ h))
      | true =>
        rw [if_pos rfl] at h
        cases hs : b.store t (if pc.type = PieceType.Pawn ∧ (t.row = 0 ∨ t.row = 7) then
            ⟨pc.color, PieceType.Queen⟩ else pc) with
        | none => rw [hs] at h; simp at h
        | some b1 =>
          rw [hs, Option.some_bind] at h
          cases hs2 : b1.store f emptyPiece with
          | none => rw [hs2] at h; simp at h
          | some bfin =>
            rw [hs2, Option.map_some'] at h
            have hb2 : bfin = b2 := congrArg Prod.snd (Option.some_injective _ h)
            obtain ⟨ti, tj, hti, htj, hb1⟩ := Board.store_eq_some _ _ _ _ hs
            obtain ⟨fi, fj, hfi, hfj, hbfin⟩ := Board.store_eq_some _ _ _ _ hs2
            exact ⟨pc, rfl, hv, fi, fj, ti, tj, hfi, hfj, hti, htj,
              by rw [← hb2, hbfin, hb1]⟩

lemma isMoveValid_true_type (pc : Piece) (f t : Position) (b : Board)
    (hv : isMoveValid pc f t b = some true) : pc.type ≠ PieceType.None := by
  intro hty
  obtain ⟨cc, ty⟩ := pc
  simp only at hty
  subst hty
  have hx : (some false : Option Bool) = some true := hv
  exact Bool.noConfusion (Option.some_injective _ hx)

lemma isMoveValid_no_same_color_dest (pc : Piece) (f t : Position) (b : Board)
    (dest : Piece) (ht : b.getPiece t = some dest)
    (hv : isMoveValid pc f t b = some true) :
    ¬(dest.type ≠ PieceType.None ∧ dest.color = pc.color) := by
  intro hd
  obtain ⟨cc, ty⟩ := pc
  cases ty with
  | None =>
    have hx : (some false : Option Bool) = some true := hv
    exact Bool.noConfusion (Option.some_injective _ hx)
  | King =>
    rw [isMoveValid_king, ht, Option.map_some', if_pos hd] at hv
    exact Bool.noConfusion (Option.some_injective _ hv)
  | Queen =>
    rw [isMoveValid_queen, ht, Option.map_some', if_pos hd] at hv
    exact Bool.noConfusion (Option.some_injective _ hv)
  | Bishop =>
    rw [isMoveValid_bishop, ht, Option.map_some', if_pos hd] at hv
    exact Bool.noConfusion (Option.some_injective _ hv)
  | Rook =>
    rw [isMoveValid_rook] at hv
    split at hv
    · exact Bool.noConfusion (Option.some_injective _ hv)
    · rw [ht, Option.map_some', if_pos hd] at hv
      exact Bool.noConfusion (Option.some_injective _ hv)
  | Knight =>
    have hk : isMoveValid ⟨cc, PieceType.Knight⟩ f t b =
        (b.getPiece t).map fun dest =>
          if dest.type ≠ PieceType.None ∧ dest.color = cc then false
          else decide (((f.row - t.row).natAbs = 2 ∧ (f.col - t.col).natAbs = 1) ∨
                       ((f.row - t.row).natAbs = 1 ∧ (f.col - t.col).natAbs = 2)) := rfl
    rw [hk, ht, Option.map_some', if_pos hd] at hv
    exact Bool.noConfusion (Option.some_injective _ hv)
  | Pawn =>
    rw [isMoveValid_pawn, ht, Option.some_bind] at hv
    rw [if_neg (fun hc => hd.1 hc.2)] at hv
    rw [if_neg (fun hc => hc.2.2.2 hd.2)] at hv
    exact Bool.noConfusion (Option.some_injective _ hv)

lemma isMoveValid_true_ne (pc : Piece) (f t : Position) (b : Board)
    (hsrc : b.getPiece f = some pc) (hv : isMoveValid pc f t b = some true) :
    f ≠ t := by
  intro hft
  rw [hft] at hsrc
  exact isMoveValid_no_same_color_dest pc f t b pc hsrc hv
    ⟨isMoveValid_true_type pc f t b hv, rfl⟩

lemma position_eq_coe (p : Position) (i j : Fin 8)
    (hi : ((i : Nat) : Int) = p.row) (hj : ((j : Nat) : Int) = p.col) :
    p = ⟨(i : Nat), (j : Nat)⟩ := by
  cases p with
  | mk r cc =>
    simp only at hi hj
    rw [← hi, ← hj]

/-- C5: a successful move of a Pawn of color `c` onto the farthest rank for
`c` (row 0 for White, row 7 for Black) leaves a newly created Queen of
color `c` in the destination cell and `Empty` in the source cell. -/
theorem C5_promotion (b : Board) (c : PieceColor) (f t : Position) (b2 : Board)
    (hsrc : b.getPiece f = some ⟨c, PieceType.Pawn⟩)
    (hfar : t.row = if c = PieceColor.White then 0 else 7)
    (h : b.move f t = some (true, b2)) :
    b2.getPiece t = some ⟨c, PieceType.Queen⟩ ∧ b2.getPiece f = some emptyPiece := by
  obtain ⟨pc, hg, hv, fi, fj, ti, tj, hfi, hfj, hti, htj, hb2⟩ := Board.move_true_elim b f t b2 h
  rw [hsrc] at hg
  have hpc : pc = ⟨c, PieceType.Pawn⟩ := (Option.some_injective _ hg).symm
  subst hpc
  have hft : f ≠ t := isMoveValid_true_ne _ f t b hsrc hv
  have hfpos : f = ⟨(fi : Nat), (fj : Nat)⟩ := position_eq_coe f fi fj hfi hfj
  have htpos : t = ⟨(ti : Nat), (tj : Nat)⟩ := position_eq_coe t ti tj hti htj
  have hidx : ¬(ti = fi ∧ tj = fj) := by
    rintro ⟨h1, h2⟩
    exact hft (by rw [hfpos, htpos, h1, h2])
  have hpromo : ((⟨c, PieceType.Pawn⟩ : Piece).type = PieceType.Pawn ∧
      (t.row = 0 ∨ t.row = 7)) := by
    refine ⟨rfl, ?_⟩
    rw [hfar]
    cases c with
    | White => exact Or.inl (by rw [if_pos rfl])
    | Black => exact Or.inr (by rw [if_neg (fun hc => PieceColor.noConfusion hc)])
  rw [if_pos hpromo] at hb2
  constructor
  · rw [htpos, Board.getPiece_coe, hb2]
    rw [Board.setCell_other _ _ _ _ _ _ hidx, Board.setCell_self]
  · rw [hfpos, Board.getPiece_coe, hb2, Board.setCell_self]

/-- A board holding only a white Pawn at `(1,4)`, one step from promotion
(the C5 witness board). -/
def promoBoard : Board := fun i j =>
  if (i : Nat) = 1 ∧ (j : Nat) = 4 then ⟨PieceColor.White, PieceType.Pawn⟩
  else emptyPiece

/-- The board `promoBoard` yields after the promoting move `(1,4) → (0,4)`. -/
def promoBoardAfter : Board :=
  match promoBoard.move ⟨1, 4⟩ ⟨0, 4⟩ with
  | some r => r.2
  | none => promoBoard

/-- Witness for C5: the white pawn at `(1,4)` moving to the empty square
`(0,4)` succeeds and leaves a white Queen at `(0,4)` and `Empty` at
`(1,4)`. -/
theorem C5_promotion_witness :
    promoBoard.move ⟨1, 4⟩ ⟨0, 4⟩ = some (true, promoBoardAfter) ∧
      promoBoardAfter.getPiece ⟨0, 4⟩ = some ⟨PieceColor.White, PieceType.Queen⟩ ∧
      promoBoardAfter.getPiece ⟨1, 4⟩ = some emptyPiece := by
  have h : promoBoard.move ⟨1, 4⟩ ⟨0, 4⟩ = some (true, promoBoardAfter) := rfl
  have hc := C5_promotion promoBoard PieceColor.White ⟨1, 4⟩ ⟨0, 4⟩ promoBoardAfter rfl rfl h
  exact ⟨h, hc.1, hc.2⟩

/-! ### Piece counting (C10) -/

/-- The number of cells holding a real piece (type other than `None`). -/
def Board.pieceCount (b : Board) : Nat :=
  (Finset.univ.filter fun ij : Fin 8 × Fin 8 =>
    (b ij.1 ij.2).type ≠ PieceType.None).card

/-- C10: a successful move with distinct source and destination preserves
the piece count when the destination held `Empty`, lowers it by exactly one
when the destination held a piece, and never raises it — promotion replaces
the pawn rather than adding a piece. -/
theorem C10_piece_count (b : Board) (f t : Position) (b2 : Board) (dest : Piece)
    (hft : f ≠ t) (hdest : b.getPiece t = some dest)
    (h : b.move f t = some (true, b2)) :
    (dest.type = PieceType.None → b2.pieceCount = b.pieceCount) ∧
    (dest.type ≠ PieceType.None → b2.pieceCount + 1 = b.pieceCount) ∧
    b2.pieceCount ≤ b.pieceCount := by
  obtain ⟨pc, hg, hv, fi, fj, ti, tj, hfi, hfj, hti, htj, hb2⟩ := Board.move_true_elim b f t b2 h
  have hfpos : f = ⟨(fi : Nat), (fj : Nat)⟩ := position_eq_coe f fi fj hfi hfj
  have htpos : t = ⟨(ti : Nat), (tj : Nat)⟩ := position_eq_coe t ti tj hti htj
  have hbf : b fi fj = pc := by
    rw [hfpos, Board.getPiece_coe] at hg
    exact Option.some_injective _ hg
  have hbt : b ti tj = dest := by
    rw [htpos, Board.getPiece_coe] at hdest
    exact Option.some_injective _ hdest
  have hidx : ¬(ti = fi ∧ tj = fj) := by
    rintro ⟨h1, h2⟩
    exact hft (by rw [hfpos, htpos, h1, h2])
  have hidx2 : ((ti, tj) : Fin 8 × Fin 8) ≠ (fi, fj) := by
    intro hp
    exact hidx ⟨congrArg Prod.fst hp, congrArg Prod.snd hp⟩
  have hpcne : pc.type ≠ PieceType.None := isMoveValid_true_type pc f t b hv
  have hmne : (if pc.type = PieceType.Pawn ∧ (t.row = 0 ∨ t.row = 7) then
      (⟨pc.color, PieceType.Queen⟩ : Piece) else pc).type ≠ PieceType.None := by
    split_ifs with hq
    · exact fun hx => PieceType.noConfusion hx
    · exact hpcne
  have hcell : ∀ x y : Fin 8, b2 x y =
      if x = fi ∧ y = fj then emptyPiece
      else if x = ti ∧ y = tj then
        (if pc.type = PieceType.Pawn ∧ (t.row = 0 ∨ t.row = 7) then
          (⟨pc.color, PieceType.Queen⟩ : Piece) else pc)
      else b x y := by
    intro x y
    rw [hb2]
    by_cases hx1 : x = fi ∧ y = fj
    · rw [if_pos hx1, Board.setCell, if_pos hx1]
    · rw [if_neg hx1, Board.setCell_other _ _ _ _ _ _ hx1]
      by_cases hx2 : x = ti ∧ y = tj
      · rw [if_pos hx2, Board.setCell, if_pos hx2]
      · rw [if_neg hx2, Board.setCell_other _ _ _ _ _ _ hx2]
  have hmemf : ((fi, fj) : Fin 8 × Fin 8) ∈
      Finset.univ.filter (fun ij : Fin 8 × Fin 8 => (b ij.1 ij.2).type ≠ PieceType.None) :=
    Finset.mem_filter.mpr ⟨Finset.mem_univ _, by rw [hbf]; exact hpcne⟩
  by_cases hdt : dest.type = PieceType.None
  · have hset : Finset.univ.filter
        (fun ij : Fin 8 × Fin 8 => (b2 ij.1 ij.2).type ≠ PieceType.None) =
        insert ((ti, tj) : Fin 8 × Fin 8)
          ((Finset.univ.filter fun ij : Fin 8 × Fin 8 =>
            (b ij.1 ij.2).type ≠ PieceType.None).erase (fi, fj)) := by
      ext ⟨x, y⟩
      simp only [Finset.mem_filter, Finset.mem_univ, true_and, Finset.mem_insert,
        Finset.mem_erase, Prod.mk.injEq]
      rw [hcell x y]
      by_cases hx1 : x = fi ∧ y = fj
      · rw [if_pos hx1]
        constructor
        · intro hx; exact absurd rfl hx
        · rintro (⟨hxt, hyt⟩ | ⟨hxne, _⟩)
          · exact absurd (⟨by rw [← hxt]; exact hx1.1, by rw [← hyt]; exact hx1.2⟩ :
              ti = fi ∧ tj = fj) hidx
          · exact absurd (by rw [hx1.1, hx1.2]) hxne
      · rw [if_neg hx1]
        by_cases hx2 : x = ti ∧ y = tj
        · rw [if_pos hx2]
          exact iff_of_true hmne (Or.inl ⟨hx2.1, hx2.2⟩)
        · rw [if_neg hx2]
          constructor
          · intro hx
            refine Or.inr ⟨?_, hx⟩
            intro hcon
            exact hx1 ⟨congrArg Prod.fst hcon, congrArg Prod.snd hcon⟩
          · rintro (⟨hxt, hyt⟩ | ⟨_, hx⟩)
            · exact absurd ⟨hxt, hyt⟩ hx2
            · exact hx
    have hnotmem : ((ti, tj) : Fin 8 × Fin 8) ∉
        (Finset.univ.filter fun ij : Fin 8 × Fin 8 =>
          (b ij.1 ij.2).type ≠ PieceType.None).erase (fi, fj) := by
      intro hmem
      have hx := (Finset.mem_filter.mp (Finset.mem_of_mem_erase hmem)).2
      rw [hbt] at hx
      exact hx hdt
    have hcard : b2.pieceCount = b.pieceCount := by
      rw [Board.pieceCount, Board.pieceCount, hset,
        Finset.card_insert_of_not_mem hnotmem, Finset.card_erase_add_one hmemf]
    exact ⟨fun _ => hcard, fun hc => absurd hdt hc, by omega⟩
  · have hset : Finset.univ.filter
        (fun ij : Fin 8 × Fin 8 => (b2 ij.1 ij.2).type ≠ PieceType.None) =
        (Finset.univ.filter fun ij : Fin 8 × Fin 8 =>
          (b ij.1 ij.2).type ≠ PieceType.None).erase (fi, fj) := by
      ext ⟨x, y⟩
      simp only [Finset.mem_filter, Finset.mem_univ, true_and, Finset.mem_erase,
        Prod.mk.injEq]
      rw [hcell x y]
      by_cases hx1 : x = fi ∧ y = fj
      · rw [if_pos hx1]
        constructor
        · intro hx; exact absurd rfl hx
        · rintro ⟨hxne, _⟩
          exact absurd (by rw [hx1.1, hx1.2]) hxne
      · rw [if_neg hx1]
        have hxpair : ¬((x, y) : Fin 8 × Fin 8) = (fi, fj) := by
          intro hcon
          exact hx1 ⟨congrArg Prod.fst hcon, congrArg Prod.snd hcon⟩
        by_cases hx2 : x = ti ∧ y = tj
        · rw [if_pos hx2]
          refine iff_of_true hmne ⟨fun hcon => hxpair hcon, ?_⟩
          rw [hx2.1, hx2.2, hbt]
          exact hdt
        · rw [if_neg hx2]
          exact ⟨fun hx => ⟨fun hcon => hxpair hcon, hx⟩, fun hx => hx.2⟩
    have hcard : b2.pieceCount + 1 = b.pieceCount := by
      rw [Board.pieceCount, Board.pieceCount, hset, Finset.card_erase_add_one hmemf]
    exact ⟨fun hc => absurd hc hdt, fun _ => hcard, by omega⟩

/-- The board after White's double pawn step `(6,4) → (4,4)` from the
starting position (the C10 witness board). -/
def boardAfterE2E4 : Board :=
  match Board.setup.move ⟨6, 4⟩ ⟨4, 4⟩ with
  | some r => r.2
  | none => Board.setup

/-- Witness for C10: the opening pawn move onto an empty square leaves the
piece count unchanged. -/
theorem C10_piece_count_witness :
    boardAfterE2E4.pieceCount = Board.setup.pieceCount :=
  (C10_piece_count Board.setup ⟨6, 4⟩ ⟨4, 4⟩ boardAfterE2E4 emptyPiece
    (by decide) rfl rfl).1 rfl

/-! ### King location and the end-of-game check (C8 machinery) -/

lemma mem_allCells (ij : Fin 8 × Fin 8) : ij ∈ allCells := by
  cases ij with
  | mk i j =>
    unfold allCells
    rw [List.mem_flatMap]
    exact ⟨i, List.mem_finRange i, List.mem_map.mpr ⟨j, List.mem_finRange j, rfl⟩⟩

lemma Board.findKing_sentinel_iff (b : Board) (c : PieceColor) :
    b.findKing c = ⟨-1, -1⟩ ↔
      ∀ i j : Fin 8, ¬((b i j).type = PieceType.King ∧ (b i j).color = c) := by
  unfold Board.findKing
  cases hf : allCells.find? (fun ij =>
      decide ((b ij.1 ij.2).type = PieceType.King ∧ (b ij.1 ij.2).color = c)) with
  | none =>
    refine iff_of_true rfl ?_
    intro i j hcon
    have hx := List.find?_eq_none.mp hf (i, j) (mem_allCells (i, j))
    exact hx (decide_eq_true hcon)
  | some ij =>
    refine iff_of_false ?_ ?_
    · intro he
      have hr : ((ij.1 : Nat) : Int) = -1 := congrArg Position.row he
      omega
    · intro hall
      have hp := List.find?_some hf
      exact hall ij.1 ij.2 (of_decide_eq_true hp)

lemma Board.findKing_row_iff (b : Board) (c : PieceColor) :
    (b.findKing c).row = -1 ↔ b.findKing c = ⟨-1, -1⟩ := by
  unfold Board.findKing
  cases hf : allCells.find? (fun ij =>
      decide ((b ij.1 ij.2).type = PieceType.King ∧ (b ij.1 ij.2).color = c)) with
  | none => exact iff_of_true rfl rfl
  | some ij =>
    refine iff_of_false ?_ ?_
    · show ((ij.1 : Nat) : Int) = -1 → False
      omega
    · intro he
      have hr : ((ij.1 : Nat) : Int) = -1 := congrArg Position.row he
      omega

/-- C8: "checkmate" as implemented is exactly "no King of that color
anywhere on the board"; `findKing` returns the sentinel `(-1,-1)` exactly
when no such king exists; and when the check fires for the color about to
move, the game ends with the other color as winner. -/
theorem C8_checkmate_is_king_absence (b : Board) (c : PieceColor) :
    (isCheckmate b c = true ↔
      ∀ i j : Fin 8, ¬((b i j).type = PieceType.King ∧ (b i j).color = c)) ∧
    (b.findKing c = ⟨-1, -1⟩ ↔
      ∀ i j : Fin 8, ¬((b i j).type = PieceType.King ∧ (b i j).color = c)) ∧
    (∀ g : ChessGame, isCheckmate g.board g.currentTurn = true →
      checkEndOfGame g = TurnOutcome.ended g.currentTurn.opposite) := by
  refine ⟨?_, Board.findKing_sentinel_iff b c, ?_⟩
  · rw [show isCheckmate b c = decide ((b.findKing c).row = -1) from rfl]
    rw [decide_eq_true_iff]
    rw [Board.findKing_row_iff]
    exact Board.findKing_sentinel_iff b c
  · intro g hg
    unfold checkEndOfGame
    rw [if_pos hg]

/-- The all-empty board (the C8 witness board: no black king anywhere). -/
def emptyBoard : Board := fun _ _ => emptyPiece

/-- Witness for C8: on the empty board Black is "checkmated" and the game
ends with White as winner. -/
theorem C8_checkmate_is_king_absence_witness :
    isCheckmate emptyBoard PieceColor.Black = true ∧
      checkEndOfGame ⟨emptyBoard, PieceColor.Black, []⟩ =
        TurnOutcome.ended PieceColor.White := by
  have h := C8_checkmate_is_king_absence emptyBoard PieceColor.Black
  have h1 : isCheckmate emptyBoard PieceColor.Black = true :=
    h.1.mpr (fun i j hcon => PieceType.noConfusion hcon.1)
  exact ⟨h1, h.2.2 ⟨emptyBoard, PieceColor.Black, []⟩ h1⟩

/-! ### The speculative self-check filter (C9 machinery) -/

lemma Board.findKing_found (b : Board)
    (hex : ∃ i j : Fin 8, (b i j).type = PieceType.King ∧ (b i j).color = PieceColor.Black) :
    (b.findKing PieceColor.Black).row ≠ -1 ∧ b.findKing PieceColor.Black ≠ ⟨-1, -1⟩ := by
  have hs : b.findKing PieceColor.Black ≠ ⟨-1, -1⟩ := by
    intro he
    obtain ⟨i, j, h1, h2⟩ := hex
    exact (Board.findKing_sentinel_iff b PieceColor.Black).mp he i j ⟨h1, h2⟩
  exact ⟨fun hr => hs ((Board.findKing_row_iff b PieceColor.Black).mp hr), hs⟩

/-- No accepted move of a black piece can remove the black king: the king
either is the mover (and lands on the destination) or sits on a cell the
move does not touch (the destination cannot hold it, since every piece
kind rejects a same-color destination occupant). -/
lemma black_king_survives (b : Board) (f t : Position) (pc : Piece) (b2 : Board)
    (hsrc : b.getPiece f = some pc) (hcol : pc.color = PieceColor.Black)
    (h : b.move f t = some (true, b2))
    (hking : ∃ i j : Fin 8, (b i j).type = PieceType.King ∧
      (b i j).color = PieceColor.Black) :
    ∃ i j : Fin 8, (b2 i j).type = PieceType.King ∧
      (b2 i j).color = PieceColor.Black := by
  obtain ⟨ki, kj, hk1, hk2⟩ := hking
  obtain ⟨pc', hg, hv, fi, fj, ti, tj, hfi, hfj, hti, htj, hb2⟩ := Board.move_true_elim b f t b2 h
  rw [hsrc] at hg
  have hpc : pc' = pc := Option.some_injective _ hg.symm
  rw [hpc] at hv hb2
  have hfpos : f = ⟨(fi : Nat), (fj : Nat)⟩ := position_eq_coe f fi fj hfi hfj
  have htpos : t = ⟨(ti : Nat), (tj : Nat)⟩ := position_eq_coe t ti tj hti htj
  have hbf : b fi fj = pc := by
    rw [hfpos, Board.getPiece_coe] at hsrc
    exact Option.some_injective _ hsrc
  have hft : f ≠ t := isMoveValid_true_ne pc f t b (by rw [hfpos, Board.getPiece_coe, hbf]) hv
  have hidx : ¬(ti = fi ∧ tj = fj) := by
    rintro ⟨h1, h2⟩
    exact hft (by rw [hfpos, htpos, h1, h2])
  have ht : b.getPiece t = some (b ti tj) := by rw [htpos, Board.getPiece_coe]
  by_cases hkf : ki = fi ∧ kj = fj
  · have hpck : pc.type = PieceType.King := by
      rw [← hbf, ← hkf.1, ← hkf.2]
      exact hk1
    refine ⟨ti, tj, ?_, ?_⟩
    · rw [hb2, Board.setCell_other _ _ _ _ _ _ hidx, Board.setCell_self,
        if_neg (fun hc => PieceType.noConfusion (hpck ▸ hc.1))]
      exact hpck
    · rw [hb2, Board.setCell_other _ _ _ _ _ _ hidx, Board.setCell_self,
        if_neg (fun hc => PieceType.noConfusion (hpck ▸ hc.1))]
      exact hcol
  · by_cases hkt : ki = ti ∧ kj = tj
    · exfalso
      apply isMoveValid_no_same_color_dest pc f t b (b ti tj) ht hv
      constructor
      · rw [← hkt.1, ← hkt.2, hk1]
        exact fun hx => PieceType.noConfusion hx
      · rw [← hkt.1, ← hkt.2, hk2, hcol]
    · have hsame : b2 ki kj = b ki kj := by
        rw [hb2, Board.setCell_other _ _ _ _ _ _ hkf, Board.setCell_other _ _ _ _ _ _ hkt]
      exact ⟨ki, kj, by rw [hsame]; exact hk1, by rw [hsame]; exact hk2⟩

/-- A successful `Board::move` at in-range coordinates, with its resulting
board spelled out (used to reduce the selector's speculative probe). -/
lemma Board.move_coe_valid (b : Board) (fi fj ti tj : Fin 8)
    (hv : isMoveValid (b fi fj) ⟨(fi : Nat), (fj : Nat)⟩ ⟨(ti : Nat), (tj : Nat)⟩ b =
      some true) :
    b.move ⟨(fi : Nat), (fj : Nat)⟩ ⟨(ti : Nat), (tj : Nat)⟩ =
      some (true, (b.setCell ti tj
        (if (b fi fj).type = PieceType.Pawn ∧
            (((ti : Nat) : Int) = 0 ∨ ((ti : Nat) : Int) = 7) then
          ⟨(b fi fj).color, PieceType.Queen⟩
        else (b fi fj))).setCell fi fj emptyPiece) := by
  unfold Board.move
  rw [Board.getPiece_coe, Option.some_bind, hv, Option.some_bind, if_pos rfl,
    Board.store_coe, Option.some_bind, Board.store_coe, Option.map_some']

/-- The inner loop body of the random-move selector in `ChessGame::start`
(the Black branch): enumerate all `(from, to)` with a black piece at
`from` whose legality predicate accepts the pair, keeping a candidate only
if after applying it to a cloned board the black king is still found
(`findKing(...).row != -1`). -/
def blackMoveCandidatesChecked (b : Board) : List (Position × Position) :=
  allCells.flatMap fun fij =>
    if (b fij.1 fij.2).color ≠ PieceColor.Black ∨
        (b fij.1 fij.2).type = PieceType.None then []
    else
      allCells.filterMap fun tij =>
        if isMoveValid (b fij.1 fij.2) ⟨(fij.1 : Nat), (fij.2 : Nat)⟩
            ⟨(tij.1 : Nat), (tij.2 : Nat)⟩ b = some true then
          match b.move ⟨(fij.1 : Nat), (fij.2 : Nat)⟩ ⟨(tij.1 : Nat), (tij.2 : Nat)⟩ with
          | some r =>
            if (r.2.findKing PieceColor.Black).row ≠ -1 then
              some (⟨(fij.1 : Nat), (fij.2 : Nat)⟩, ⟨(tij.1 : Nat), (tij.2 : Nat)⟩)
            else none
          | none => none
        else none

/-- The same enumeration without the speculative self-check filter — the
plain legality-based candidate set the spec compares the selector
against. -/
def blackMoveCandidates (b : Board) : List (Position × Position) :=
  allCells.flatMap fun fij =>
    if (b fij.1 fij.2).color ≠ PieceColor.Black ∨
        (b fij.1 fij.2).type = PieceType.None then []
    else
      allCells.filterMap fun tij =>
        if isMoveValid (b fij.1 fij.2) ⟨(fij.1 : Nat), (fij.2 : Nat)⟩
            ⟨(tij.1 : Nat), (tij.2 : Nat)⟩ b = some true then
          some (⟨(fij.1 : Nat), (fij.2 : Nat)⟩, ⟨(tij.1 : Nat), (tij.2 : Nat)⟩)
        else none

/-- C9: on any board still containing the black king, an accepted move of a
black piece always leaves the black king locatable, so the selector's
speculative self-check filter removes no candidate: the filtered candidate
list equals the plain legality-based enumeration. -/
theorem C9_self_check_filter_noop (b : Board)
    (hking : ∃ i j : Fin 8, (b i j).type = PieceType.King ∧
      (b i j).color = PieceColor.Black) :
    (∀ (f t : Position) (pc : Piece) (b2 : Board),
      b.getPiece f = some pc → pc.color = PieceColor.Black →
      b.move f t = some (true, b2) →
      b2.findKing PieceColor.Black ≠ ⟨-1, -1⟩) ∧
    blackMoveCandidatesChecked b = blackMoveCandidates b := by
  constructor
  · intro f t pc b2 hs hc hm
    exact (Board.findKing_found b2 (black_king_survives b f t pc b2 hs hc hm hking)).2
  · unfold blackMoveCandidatesChecked blackMoveCandidates
    refine congrArg (allCells.flatMap) (funext fun fij => ?_)
    by_cases hout : (b fij.1 fij.2).color ≠ PieceColor.Black ∨
        (b fij.1 fij.2).type = PieceType.None
    · rw [if_pos hout, if_pos hout]
    · rw [if_neg hout, if_neg hout]
      have hcol : (b fij.1 fij.2).color = PieceColor.Black := by
        rcases not_or.mp hout with ⟨h1, _⟩
        exact not_not.mp h1
      refine congrArg (fun g => List.filterMap g allCells) (funext fun tij => ?_)
      by_cases hleg : isMoveValid (b fij.1 fij.2) ⟨(fij.1 : Nat), (fij.2 : Nat)⟩
          ⟨(tij.1 : Nat), (tij.2 : Nat)⟩ b = some true
      · rw [if_pos hleg, if_pos hleg,
          Board.move_coe_valid b fij.1 fij.2 tij.1 tij.2 hleg]
        have hrow := (Board.findKing_found _
          (black_king_survives b ⟨(fij.1 : Nat), (fij.2 : Nat)⟩
            ⟨(tij.1 : Nat), (tij.2 : Nat)⟩ (b fij.1 fij.2) _
            (Board.getPiece_coe b fij.1 fij.2) hcol
            (Board.move_coe_valid b fij.1 fij.2 tij.1 tij.2 hleg) hking)).1
        show (if ((((b.setCell tij.1 tij.2
            (if (b fij.1 fij.2).type = PieceType.Pawn ∧
                (((tij.1 : Nat) : Int) = 0 ∨ ((tij.1 : Nat) : Int) = 7) then
              ⟨(b fij.1 fij.2).color, PieceType.Queen⟩
            else (b fij.1 fij.2))).setCell fij.1 fij.2
              emptyPiece).findKing PieceColor.Black).row ≠ -1) then
          some ((⟨(fij.1 : Nat), (fij.2 : Nat)⟩ : Position),
            (⟨(tij.1 : Nat), (tij.2 : Nat)⟩ : Position))
        else none) = some (⟨(fij.1 : Nat), (fij.2 : Nat)⟩, ⟨(tij.1 : Nat), (tij.2 : Nat)⟩)
        rw [if_pos hrow]
      · rw [if_neg hleg, if_neg hleg]

/-- Witness for C9: on the starting board (which contains the black king)
the filtered and unfiltered candidate enumerations coincide. -/
theorem C9_self_check_filter_noop_witness :
    blackMoveCandidatesChecked Board.setup = blackMoveCandidates Board.setup :=
  (C9_self_check_filter_noop Board.setup (by decide)).2
